import Mathlib

/-!
Verification of the note-store logic of `telebot.py`.

The program keeps a single SQLite table
`messages (id INTEGER PRIMARY KEY AUTOINCREMENT, title TEXT UNIQUE COLLATE NOCASE, message TEXT)`
and exposes four handlers over it: `save_message` (free text `"title: body"`),
`get_message` (`/get <title...>`), `delete_message` (`/delete <title...>`) and
`inline_query` (inline search via `title LIKE '%' || query || '%'`).

The embedding below models the table as a list of rows in insertion (rowid)
order, SQLite's `NOCASE` collation as comparison after folding the ASCII
letters A-Z to lower case (`Char.toLower` folds exactly those characters,
matching SQLite's `NOCASE`), Python's `str.strip()` as dropping whitespace
characters from both ends of the character list, and SQLite's `LIKE` operator
(with its `%` and `_` wildcards and ASCII-case-insensitive literal characters)
as an explicit recursive matcher.
-/

namespace Telebot

/-- A row of the `messages` table: the stored `(title, message)` pair. The
autoincrement `id` column is modelled by the row's position in the list. -/
structure Note where
  title : String
  message : String
  deriving DecidableEq, Repr

/-- The `messages` table, rows in insertion (rowid) order. -/
abbrev Store := List Note

/-- Case-folded comparison key used by SQLite's `NOCASE` collation: the
characters of the string with ASCII upper-case letters folded to lower case.
`Char.toLower` folds exactly the basic latin letters A-Z, which is precisely
what SQLite's `NOCASE` collation folds. -/
def nocaseKey (s : String) : List Char := s.data.map Char.toLower

/-- SQLite `title = ?` comparison under the column's `COLLATE NOCASE`:
equality of the case-folded keys. -/
def nocaseEq (a b : String) : Bool := nocaseKey a == nocaseKey b

/-- Python `str.strip()` on a character list: drop whitespace from the front,
then from the back (`List.rdropWhile` drops from the tail end). -/
def stripWS (l : List Char) : List Char :=
  List.rdropWhile Char.isWhitespace (l.dropWhile Char.isWhitespace)

/-- Python `s.strip()` for strings. -/
def pystrip (s : String) : String := String.mk (stripWS s.data)

/-- Python `':' in text` together with `text.split(':', 1)`: `none` when the
text has no colon, otherwise the segments before and after the FIRST colon. -/
def splitFirstColon : List Char → Option (List Char × List Char)
  | [] => none
  | c :: cs =>
    if c = ':' then some ([], cs)
    else
      match splitFirstColon cs with
      | none => none
      | some (a, b) => some (c :: a, b)

/-- Outcome of the `INSERT` in `save_message`: success, or the
`sqlite3.IntegrityError` raised by the `UNIQUE COLLATE NOCASE` constraint. -/
inductive CreateResult where
  | ok
  | duplicateTitle
  deriving DecidableEq, Repr

/-- Lines 51-56 of `telebot.py`: `INSERT INTO messages (title, message)
VALUES (?, ?)` under the `UNIQUE COLLATE NOCASE` constraint on `title`.
The insert fails (and the table is unchanged) exactly when some stored row's
title is `NOCASE`-equal to the new title; otherwise the row is appended. -/
def createNote (title message : String) (db : Store) : Store × CreateResult :=
  if db.any (fun n => nocaseEq n.title title) then
    (db, CreateResult.duplicateTitle)
  else
    (db ++ [⟨title, message⟩], CreateResult.ok)

/-- Reply sent by the `save_message` handler. -/
inductive SaveReply where
  | saved (title : String)
  | duplicate (title : String)
  | usage
  deriving DecidableEq, Repr

/-- The `save_message` handler (lines 44-60): if the text contains a colon,
split at the first colon, strip both segments, and insert; reply with the
success confirmation, the duplicate-title rejection, or the usage hint. -/
def save_message (text : String) (db : Store) : Store × SaveReply :=
  match splitFirstColon text.data with
  | none => (db, SaveReply.usage)
  | some (t, m) =>
    let title := String.mk (stripWS t)
    let message := String.mk (stripWS m)
    match createNote title message db with
    | (db2, CreateResult.ok) => (db2, SaveReply.saved title)
    | (db2, CreateResult.duplicateTitle) => (db2, SaveReply.duplicate title)

/-- Reply sent by the `get_message` handler. -/
inductive GetReply where
  | found (title body : String)
  | notFound (title : String)
  | usage
  deriving DecidableEq, Repr

/-- The `get_message` handler (lines 62-73): join the command arguments with
single spaces, strip, and run `SELECT message FROM messages WHERE title = ?`
(a `NOCASE` comparison); `fetchone` returns the first matching row. -/
def get_message (args : List String) (db : Store) : GetReply :=
  match args with
  | [] => GetReply.usage
  | _ :: _ =>
    let title := pystrip (String.intercalate " " args)
    match db.find? (fun n => nocaseEq n.title title) with
    | some n => GetReply.found title n.message
    | none => GetReply.notFound title

/-- Reply sent by the `delete_message` handler. -/
inductive DeleteReply where
  | deleted (title : String)
  | notFound (title : String)
  | usage
  deriving DecidableEq, Repr

/-- The `delete_message` handler (lines 75-86): join the arguments, strip, run
`DELETE FROM messages WHERE title = ?` (a `NOCASE` comparison, removing every
matching row), and branch on `cursor.rowcount` (the number of rows removed,
returned as the middle component). -/
def delete_message (args : List String) (db : Store) : Store × Nat × DeleteReply :=
  match args with
  | [] => (db, 0, DeleteReply.usage)
  | _ :: _ =>
    let title := pystrip (String.intercalate " " args)
    let kept := db.filter (fun n => !(nocaseEq n.title title))
    let rowcount := db.countP (fun n => nocaseEq n.title title)
    if rowcount > 0 then (kept, rowcount, DeleteReply.deleted title)
    else (kept, rowcount, DeleteReply.notFound title)

/-- Helper for the `%` wildcard of SQLite `LIKE`: `likeStar f s` holds when
the rest of the pattern (`f`) matches some suffix of `s`. -/
def likeStar (f : List Char → Bool) : List Char → Bool
  | [] => f []
  | c :: cs => f (c :: cs) || likeStar f cs

/-- SQLite `LIKE` pattern matching: `%` matches any (possibly empty) sequence,
`_` matches any single character, and any other pattern character matches a
single character ASCII-case-insensitively. -/
def likeMatch : List Char → List Char → Bool
  | [], s => s.isEmpty
  | p :: ps, s =>
    if p = '%' then likeStar (likeMatch ps) s
    else
      match s with
      | [] => false
      | c :: cs => (if p = '_' then true else p.toLower == c.toLower) && likeMatch ps cs

/-- SQLite `x LIKE pattern` on strings. -/
def sqliteLike (pat s : String) : Bool := likeMatch pat.data s.data

/-- The `inline_query` handler (lines 88-106): strip the query; when the
stripped query is empty answer with no results, otherwise answer one result
per row of `SELECT title, message FROM messages WHERE title LIKE ?` with the
pattern `'%' + query + '%'`. Each answer item displays the row's title and
inserts its message, modelled here as the `(title, message)` pair. -/
def inline_query (query : String) (db : Store) : List (String × String) :=
  let q := pystrip query
  if q = "" then []
  else
    (db.filter (fun n => sqliteLike ("%" ++ q ++ "%") n.title)).map
      (fun n => (n.title, n.message))

/-- Spec-side helper: the case-folded first list is an initial segment of the
case-folded second list. -/
def startsWithCI : List Char → List Char → Bool
  | [], _ => true
  | _ :: _, [] => false
  | q :: qs, c :: cs => q.toLower == c.toLower && startsWithCI qs cs

/-- Modelled from the spec: "pairs whose title contains the substring as a
case-insensitive infix match" - `substrCI q s` holds when `q` occurs as a
contiguous substring of `s`, comparing characters ASCII-case-insensitively.
This is the specification-side definition that the `LIKE`-based search is
compared against. -/
def substrCI (q : List Char) : List Char → Bool
  | [] => startsWithCI q []
  | c :: cs => startsWithCI q (c :: cs) || substrCI q cs

/-- The uniqueness invariant of the `messages` table: no two stored rows have
`NOCASE`-equal titles. -/
def Inv (db : Store) : Prop :=
  db.Pairwise (fun a b => nocaseKey a.title ≠ nocaseKey b.title)

instance (db : Store) : Decidable (Inv db) := by
  unfold Inv
  infer_instance

/-! Basic lemmas about the embedded operations. -/

theorem nocaseEq_iff {a b : String} : nocaseEq a b = true ↔ nocaseKey a = nocaseKey b := by
  simp [nocaseEq]

theorem splitFirstColon_eq_none {l : List Char} :
    splitFirstColon l = none ↔ ':' ∉ l := by
  induction l with
  | nil => simp [splitFirstColon]
  | cons c cs ih =>
    rw [splitFirstColon]
    by_cases hc : c = ':'
    · subst hc
      simp
    · rw [if_neg hc]
      cases h : splitFirstColon cs with
      | none =>
        simp only [List.mem_cons, not_or]
        exact ⟨fun _ => ⟨fun he => hc he.symm, ih.mp h⟩, fun _ => by trivial⟩
      | some ab =>
        obtain ⟨a, b⟩ := ab
        simp only [List.mem_cons, not_or]
        constructor
        · intro hno
          exact absurd hno (by simp)
        · rintro ⟨h1, h2⟩
          rw [ih.mpr h2] at h
          exact absurd h (by simp)

theorem splitFirstColon_append {a : List Char} (b : List Char) (h : ':' ∉ a) :
    splitFirstColon (a ++ ':' :: b) = some (a, b) := by
  induction a with
  | nil => simp [splitFirstColon]
  | cons c cs ih =>
    have hc : c ≠ ':' := fun hc => h (hc ▸ List.mem_cons_self c cs)
    have hcs : ':' ∉ cs := fun hm => h (List.mem_cons_of_mem c hm)
    rw [List.cons_append, splitFirstColon, if_neg hc, ih hcs]

theorem mem_of_mem_dropWhile {p : Char → Bool} {c : Char} :
    ∀ {l : List Char}, c ∈ l.dropWhile p → c ∈ l := by
  intro l
  induction l with
  | nil => simp [List.dropWhile]
  | cons a as ih =>
    rw [List.dropWhile_cons]
    intro h
    by_cases hp : p a = true
    · rw [if_pos hp] at h
      exact List.mem_cons_of_mem a (ih h)
    · rw [if_neg hp] at h
      exact h

theorem mem_of_mem_stripWS {c : Char} {l : List Char} (h : c ∈ stripWS l) : c ∈ l := by
  unfold stripWS List.rdropWhile at h
  rw [List.mem_reverse] at h
  have h2 := mem_of_mem_dropWhile h
  rw [List.mem_reverse] at h2
  exact mem_of_mem_dropWhile h2

theorem dropWhile_append_singleton {p : Char → Bool} {c : Char} (hc : p c = false)
    (y : List Char) : List.dropWhile p (y ++ [c]) = List.dropWhile p y ++ [c] := by
  induction y with
  | nil => simp [List.dropWhile, hc]
  | cons a as ih =>
    rw [List.cons_append, List.dropWhile_cons, List.dropWhile_cons]
    by_cases hp : p a = true
    · rw [if_pos hp, if_pos hp, ih]
    · rw [if_neg hp, if_neg hp, List.cons_append]

theorem rdropWhile_cons_neg {p : Char → Bool} {c : Char} (hc : p c = false)
    (t : List Char) : List.rdropWhile p (c :: t) = c :: List.rdropWhile p t := by
  unfold List.rdropWhile
  rw [List.reverse_cons, dropWhile_append_singleton hc, List.reverse_append]
  simp

theorem stripWS_idem (l : List Char) : stripWS (stripWS l) = stripWS l := by
  unfold stripWS
  cases h : l.dropWhile Char.isWhitespace with
  | nil => simp
  | cons c t =>
    have hc : Char.isWhitespace c = false := by
      have hidem := List.dropWhile_idempotent Char.isWhitespace l
      rw [h, List.dropWhile_cons] at hidem
      by_cases hc0 : Char.isWhitespace c = true
      · rw [if_pos hc0] at hidem
        have hlen := (List.dropWhile_sublist (l := t) Char.isWhitespace).length_le
        rw [hidem] at hlen
        simp at hlen
      · simpa using hc0
    rw [rdropWhile_cons_neg hc, List.dropWhile_cons, if_neg (by simp [hc]),
      rdropWhile_cons_neg hc, List.rdropWhile_idempotent]

theorem pystrip_idem (s : String) : pystrip (pystrip s) = pystrip s := by
  unfold pystrip
  rw [show (String.mk (stripWS s.data)).data = stripWS s.data from rfl, stripWS_idem]

theorem data_append_colon (t m : String) :
    (t ++ ":" ++ m).data = t.data ++ ':' :: m.data := by
  rw [String.data_append, String.data_append,
    show (":" : String).data = [':'] from rfl, List.append_assoc, List.singleton_append]

theorem save_message_colon (t m : String) (db : Store) (hc : ':' ∉ t.data) :
    save_message (t ++ ":" ++ m) db =
      match createNote (pystrip t) (pystrip m) db with
      | (db2, CreateResult.ok) => (db2, SaveReply.saved (pystrip t))
      | (db2, CreateResult.duplicateTitle) => (db2, SaveReply.duplicate (pystrip t)) := by
  unfold save_message
  rw [data_append_colon, splitFirstColon_append _ hc]
  rfl

theorem createNote_of_not_dup {title message : String} {db : Store}
    (h : ∀ n ∈ db, nocaseKey n.title ≠ nocaseKey title) :
    createNote title message db = (db ++ [⟨title, message⟩], CreateResult.ok) := by
  unfold createNote
  rw [if_neg]
  intro hany
  obtain ⟨n, hn, heq⟩ := List.any_eq_true.mp hany
  exact h n hn (nocaseEq_iff.mp heq)

theorem createNote_of_dup {title message : String} {db : Store}
    (h : ∃ n ∈ db, nocaseKey n.title = nocaseKey title) :
    createNote title message db = (db, CreateResult.duplicateTitle) := by
  unfold createNote
  rw [if_pos]
  obtain ⟨n, hn, heq⟩ := h
  exact List.any_eq_true.mpr ⟨n, hn, nocaseEq_iff.mpr heq⟩

theorem createNote_preserves_Inv (title message : String) (db : Store) (h : Inv db) :
    Inv (createNote title message db).1 := by
  by_cases hd : ∃ n ∈ db, nocaseKey n.title = nocaseKey title
  · rw [createNote_of_dup hd]
    exact h
  · push_neg at hd
    rw [createNote_of_not_dup hd]
    rw [Inv, List.pairwise_append]
    refine ⟨h, by simp, ?_⟩
    intro a ha b hb
    rw [List.mem_singleton] at hb
    subst hb
    exact hd a ha

theorem countP_nocase_eq_one {db : Store} {key : String} (hInv : Inv db)
    (hex : ∃ n ∈ db, nocaseKey n.title = nocaseKey key) :
    db.countP (fun n => nocaseEq n.title key) = 1 := by
  induction db with
  | nil => simp at hex
  | cons x xs ih =>
    rw [Inv, List.pairwise_cons] at hInv
    obtain ⟨hx, hxs⟩ := hInv
    by_cases hm : nocaseEq x.title key = true
    · rw [List.countP_cons_of_pos (fun n => nocaseEq n.title key) xs hm]
      have h0 : xs.countP (fun n => nocaseEq n.title key) = 0 := by
        rw [List.countP_eq_zero]
        intro y hy hyk
        exact hx y hy (by rw [nocaseEq_iff.mp hyk, ← nocaseEq_iff.mp hm])
      rw [h0]
    · rw [List.countP_cons_of_neg (fun n => nocaseEq n.title key) xs (by simpa using hm)]
      apply ih hxs
      obtain ⟨n, hn, hkey⟩ := hex
      rcases List.mem_cons.mp hn with h1 | h1
      · exact absurd (nocaseEq_iff.mpr (h1 ▸ hkey)) hm
      · exact ⟨n, h1, hkey⟩

theorem save_message_fst (text : String) (db : Store) :
    (save_message text db).1 =
      match splitFirstColon text.data with
      | none => db
      | some (t, m) => (createNote (String.mk (stripWS t)) (String.mk (stripWS m)) db).1 := by
  unfold save_message
  cases splitFirstColon text.data with
  | none => rfl
  | some tm =>
    obtain ⟨t, m⟩ := tm
    cases hcr : createNote (String.mk (stripWS t)) (String.mk (stripWS m)) db with
    | mk db2 r => cases r <;> simp [hcr]

theorem delete_message_fst (args : List String) (db : Store) :
    (delete_message args db).1 =
      match args with
      | [] => db
      | _ :: _ =>
        db.filter (fun n => !(nocaseEq n.title (pystrip (String.intercalate " " args)))) := by
  unfold delete_message
  cases args with
  | nil => rfl
  | cons a as =>
    dsimp only
    split <;> rfl

/-! Lemmas connecting SQLite `LIKE` with plain case-insensitive substring
containment, for wildcard-free patterns. -/

theorem likeStar_nil_pat (s : List Char) : likeStar (likeMatch []) s = true := by
  induction s with
  | nil => rfl
  | cons c cs ih => simp [likeStar, ih]

theorem likeMatch_pct (X s : List Char) :
    likeMatch ('%' :: X) s = likeStar (likeMatch X) s := by
  simp [likeMatch]

theorem likeMatch_wildfree (q : List Char) (h1 : '%' ∉ q) (h2 : '_' ∉ q) :
    ∀ s, likeMatch (q ++ ['%']) s = startsWithCI q s := by
  induction q with
  | nil =>
    intro s
    rw [List.nil_append, likeMatch_pct, likeStar_nil_pat]
    rfl
  | cons p ps ih =>
    intro s
    have hp1 : ¬p = '%' := fun h => h1 (h ▸ List.mem_cons_self p ps)
    have hp2 : ¬p = '_' := fun h => h2 (h ▸ List.mem_cons_self p ps)
    have hps1 : '%' ∉ ps := fun h => h1 (List.mem_cons_of_mem p h)
    have hps2 : '_' ∉ ps := fun h => h2 (List.mem_cons_of_mem p h)
    rw [List.cons_append]
    cases s with
    | nil => simp [likeMatch, startsWithCI, hp1]
    | cons c cs => simp [likeMatch, startsWithCI, hp1, hp2, ih hps1 hps2 cs]

theorem likeMatch_substrCI (q : List Char) (h1 : '%' ∉ q) (h2 : '_' ∉ q) :
    ∀ s, likeMatch ('%' :: (q ++ ['%'])) s = substrCI q s := by
  intro s
  induction s with
  | nil =>
    rw [likeMatch_pct, likeStar, likeMatch_wildfree q h1 h2]
    rfl
  | cons c cs ih =>
    rw [likeMatch_pct, likeStar, likeMatch_wildfree q h1 h2, ← likeMatch_pct, ih]
    rfl

/-! The claims. -/

/-- C1: at most one Note exists per case-insensitive normalized title in every
reachable state: the two operations that modify the store (`save_message`,
i.e. Create, and `delete_message`, i.e. Delete) preserve the invariant that no
two stored notes have `NOCASE`-equal titles; `get_message` (Get) and
`inline_query` (Search) only read the store, so they preserve it trivially
(in the model they do not even produce a store). -/
theorem store_ops_preserve_title_uniqueness (db : Store) (h : Inv db) :
    (∀ text, Inv (save_message text db).1) ∧
    (∀ args, Inv (delete_message args db).1) := by
  constructor
  · intro text
    rw [save_message_fst]
    cases splitFirstColon text.data with
    | none => exact h
    | some tm =>
      obtain ⟨t, m⟩ := tm
      exact createNote_preserves_Inv _ _ db h
  · intro args
    rw [delete_message_fst]
    cases args with
    | nil => exact h
    | cons a as => exact List.Pairwise.sublist (List.filter_sublist db) h

/-- Witness for C1 at a concrete store and inputs. -/
theorem store_ops_preserve_title_uniqueness_witness :
    Inv (save_message "Foo: bar" []).1 ∧ Inv (delete_message ["Foo"] []).1 := by
  have h := store_ops_preserve_title_uniqueness [] (by decide)
  exact ⟨h.1 "Foo: bar", h.2 ["Foo"]⟩

/-- C6: for the empty search input, `inline_query` returns no results
regardless of the store's contents - an empty result list, not all notes and
not an error. -/
theorem inline_query_empty_input (db : Store) : inline_query "" db = [] := by
  have h : pystrip "" = "" := rfl
  simp [inline_query, h]

/-- C7: Create strips leading and trailing whitespace from both title and body
before storing, so `save_message` on a padded title/body pair is equivalent
(same resulting store AND same reply) to `save_message` on the stripped pair.
The hypothesis says the title segment contains no colon, so that the split in
both messages happens at the shown separator. -/
theorem create_equiv_trimmed (t m : String) (db : Store) (hc : ':' ∉ t.data) :
    save_message (t ++ ":" ++ m) db = save_message (pystrip t ++ ":" ++ pystrip m) db := by
  have hc2 : ':' ∉ (pystrip t).data := fun hmem => hc (mem_of_mem_stripWS hmem)
  rw [save_message_colon t m db hc, save_message_colon (pystrip t) (pystrip m) db hc2,
    pystrip_idem, pystrip_idem]

/-- Witness for C7: the spec's own example `Create("  Foo  ", "  bar  ")`. -/
theorem create_equiv_trimmed_witness :
    save_message ("  Foo  " ++ ":" ++ "  bar  ") [] =
      save_message (pystrip "  Foo  " ++ ":" ++ pystrip "  bar  ") [] :=
  create_equiv_trimmed "  Foo  " "  bar  " [] (by decide)

/-- C8: a free-text message with no colon gets the usage-hint reply and the
store is left completely unchanged. -/
theorem no_separator_reply_usage (text : String) (db : Store) (h : ':' ∉ text.data) :
    save_message text db = (db, SaveReply.usage) := by
  unfold save_message
  rw [splitFirstColon_eq_none.mpr h]

/-- Witness for C8 at a concrete message and store. -/
theorem no_separator_reply_usage_witness :
    save_message "hello world" [⟨"a", "b"⟩] = ([⟨"a", "b"⟩], SaveReply.usage) :=
  no_separator_reply_usage "hello world" [⟨"a", "b"⟩] (by decide)

/-- C9: the message `": body"` has an empty title segment after trimming, yet
`save_message` accepts it and persists a Note under the empty-string title;
a second save with an empty title segment is then rejected as a duplicate, so
at most one empty-titled Note can exist. -/
theorem empty_title_accepted :
    save_message ": body" [] = ([⟨"", "body"⟩], SaveReply.saved "") ∧
    save_message ": more" [⟨"", "body"⟩] = ([⟨"", "body"⟩], SaveReply.duplicate "") := by
  constructor
  · decide
  · decide

/-- C10: the save handler splits only at the FIRST colon: for a title segment
`t` without colons, the stored title is `t` stripped and the stored body is
everything after the first colon - stripped but otherwise verbatim, colons
included (`m` ranges over all strings here, colons allowed). -/
theorem split_at_first_colon_stores_body_verbatim (t m : String) (db : Store)
    (hc : ':' ∉ t.data)
    (hnodup : ∀ n ∈ db, nocaseKey n.title ≠ nocaseKey (pystrip t)) :
    save_message (t ++ ":" ++ m) db =
      (db ++ [⟨pystrip t, pystrip m⟩], SaveReply.saved (pystrip t)) := by
  rw [save_message_colon t m db hc, createNote_of_not_dup hnodup]

/-- Witness for C10: the body `"b:c"` itself contains a colon and is stored
verbatim. -/
theorem split_at_first_colon_stores_body_verbatim_witness :
    save_message ("a" ++ ":" ++ "b:c") [] =
      ([⟨pystrip "a", pystrip "b:c"⟩], SaveReply.saved (pystrip "a")) :=
  split_at_first_colon_stores_body_verbatim "a" "b:c" [] (by decide) (by decide)

theorem get_message_single (s : String) (db2 : Store) :
    get_message [s] db2 =
      match db2.find? (fun n => nocaseEq n.title (pystrip s)) with
      | some n => GetReply.found (pystrip s) n.message
      | none => GetReply.notFound (pystrip s) := rfl

theorem intercalate_single (s : String) : String.intercalate " " [s] = s := rfl

theorem delete_message_single (s : String) (db2 : Store) :
    delete_message [s] db2 =
      (db2.filter (fun n => !(nocaseEq n.title (pystrip s))),
       db2.countP (fun n => nocaseEq n.title (pystrip s)),
       if db2.countP (fun n => nocaseEq n.title (pystrip s)) > 0
       then DeleteReply.deleted (pystrip s) else DeleteReply.notFound (pystrip s)) := by
  unfold delete_message
  dsimp only
  rw [intercalate_single]
  by_cases h : db2.countP (fun n => nocaseEq n.title (pystrip s)) > 0
  · rw [if_pos h, if_pos h]
  · rw [if_neg h, if_neg h]

/-- C2: for a stored Note `(T, B)` and any casing variant `Tv` of `T`, Create
of `(Tv, B2)` hits the `UNIQUE COLLATE NOCASE` constraint: it returns
`duplicateTitle`, the store is unchanged, the original note is still stored,
and (by uniqueness) it is the only note under that normalized title, so the
original body `B` is intact. -/
theorem create_duplicate_rejected (db : Store) (T B Tv B2 : String)
    (hInv : Inv db) (hmem : Note.mk T B ∈ db) (hvar : nocaseKey Tv = nocaseKey T) :
    createNote Tv B2 db = (db, CreateResult.duplicateTitle) ∧
    Note.mk T B ∈ db ∧
    ∀ n ∈ db, nocaseKey n.title = nocaseKey T → n = Note.mk T B := by
  refine ⟨createNote_of_dup ⟨⟨T, B⟩, hmem, hvar.symm⟩, hmem, ?_⟩
  intro n hn hkey
  by_contra hne
  have hP : db.Pairwise (fun a b => nocaseKey a.title ≠ nocaseKey b.title) := hInv
  have hsymm : Symmetric (fun a b : Note => nocaseKey a.title ≠ nocaseKey b.title) :=
    fun a b hab he => hab he.symm
  exact List.Pairwise.forall hsymm hP hn hmem hne hkey

/-- Witness for C2: `Create("FOO", "x")` against a store holding
`("Foo", "bar")`. -/
theorem create_duplicate_rejected_witness :
    createNote "FOO" "x" [⟨"Foo", "bar"⟩] = ([⟨"Foo", "bar"⟩], CreateResult.duplicateTitle) ∧
    Note.mk "Foo" "bar" ∈ [Note.mk "Foo" "bar"] ∧
    ∀ n ∈ [Note.mk "Foo" "bar"], nocaseKey n.title = nocaseKey "Foo" → n = Note.mk "Foo" "bar" :=
  create_duplicate_rejected [⟨"Foo", "bar"⟩] "Foo" "bar" "FOO" "x" (by decide) (by decide)
    (by decide)

/-- C3: after a successful `Create(T, B)`, `get_message` on any casing variant
`Tv` of `T` (stripped) replies with body `B`; and in general `get_message`
replies `notFound` exactly when no stored note's title `NOCASE`-matches the
stripped input. -/
theorem create_then_get_case_insensitive (db : Store) (T B Tv : String)
    (hok : (createNote T B db).2 = CreateResult.ok)
    (hvar : nocaseKey (pystrip Tv) = nocaseKey T) :
    get_message [Tv] (createNote T B db).1 = GetReply.found (pystrip Tv) B ∧
    ∀ (db2 : Store) (s : String),
      (get_message [s] db2 = GetReply.notFound (pystrip s) ↔
        ∀ n ∈ db2, nocaseKey n.title ≠ nocaseKey (pystrip s)) := by
  constructor
  · by_cases hd : ∃ n ∈ db, nocaseKey n.title = nocaseKey T
    · rw [createNote_of_dup hd] at hok
      exact absurd hok (by simp)
    · push_neg at hd
      rw [createNote_of_not_dup hd, get_message_single]
      have hnone : db.find? (fun n => nocaseEq n.title (pystrip Tv)) = none := by
        rw [List.find?_eq_none]
        intro n hn hcontra
        exact hd n hn (by rw [nocaseEq_iff.mp hcontra, hvar])
      rw [List.find?_append, hnone, Option.none_or]
      have hone : ([⟨T, B⟩] : Store).find? (fun n => nocaseEq n.title (pystrip Tv)) =
          some ⟨T, B⟩ :=
        List.find?_cons_of_pos _
          (show nocaseEq (Note.mk T B).title (pystrip Tv) = true from
            nocaseEq_iff.mpr hvar.symm)
      rw [hone]
  · intro db2 s
    rw [get_message_single]
    cases hf : db2.find? (fun n => nocaseEq n.title (pystrip s)) with
    | none =>
      refine ⟨fun _ n hn hkey => ?_, fun _ => rfl⟩
      exact List.find?_eq_none.mp hf n hn (nocaseEq_iff.mpr hkey)
    | some n =>
      constructor
      · intro hcontra
        exact absurd hcontra (by simp)
      · intro hall
        have hp := List.find?_some hf
        have hmem := List.mem_of_find?_eq_some hf
        exact absurd (nocaseEq_iff.mp hp) (hall n hmem)

/-- Witness for C3: `Create("Foo", "bar")` into the empty store, then
`get_message [" fOO "]`. -/
theorem create_then_get_case_insensitive_witness :
    get_message [" fOO "] (createNote "Foo" "bar" []).1 =
      GetReply.found (pystrip " fOO ") "bar" ∧
    ∀ (db2 : Store) (s : String),
      (get_message [s] db2 = GetReply.notFound (pystrip s) ↔
        ∀ n ∈ db2, nocaseKey n.title ≠ nocaseKey (pystrip s)) :=
  create_then_get_case_insensitive [] "Foo" "bar" " fOO " (by decide) (by decide)

/-- C4: `delete_message` removes the `NOCASE`-matching note when one is
present, reporting rowcount 1 (uniqueness makes the count exactly 1), after
which `get_message` and a repeated `delete_message` both report `notFound`
with the store unchanged; with no match it reports rowcount 0, replies
`notFound` and leaves the store unchanged. -/
theorem delete_removes_ci_match (db : Store) (T : String) (hInv : Inv db) :
    ((∃ n ∈ db, nocaseKey n.title = nocaseKey (pystrip T)) →
      delete_message [T] db =
        (db.filter (fun n => !(nocaseEq n.title (pystrip T))), 1,
          DeleteReply.deleted (pystrip T)) ∧
      get_message [T] (delete_message [T] db).1 = GetReply.notFound (pystrip T) ∧
      delete_message [T] (delete_message [T] db).1 =
        ((delete_message [T] db).1, 0, DeleteReply.notFound (pystrip T))) ∧
    ((¬ ∃ n ∈ db, nocaseKey n.title = nocaseKey (pystrip T)) →
      delete_message [T] db = (db, 0, DeleteReply.notFound (pystrip T))) := by
  constructor
  · intro hex
    have hc1 := countP_nocase_eq_one hInv hex
    have hdel : delete_message [T] db =
        (db.filter (fun n => !(nocaseEq n.title (pystrip T))), 1,
          DeleteReply.deleted (pystrip T)) := by
      rw [delete_message_single, hc1]
      simp
    refine ⟨hdel, ?_, ?_⟩
    · rw [hdel, get_message_single]
      have hf : (db.filter (fun n => !(nocaseEq n.title (pystrip T)))).find?
          (fun n => nocaseEq n.title (pystrip T)) = none := by
        rw [List.find?_eq_none]
        intro n hn
        have h2 := (List.mem_filter.mp hn).2
        simp only [Bool.not_eq_true'] at h2
        simp [h2]
      rw [hf]
    · rw [hdel, delete_message_single]
      have hc0 : (db.filter (fun n => !(nocaseEq n.title (pystrip T)))).countP
          (fun n => nocaseEq n.title (pystrip T)) = 0 := by
        rw [List.countP_eq_zero]
        intro n hn
        have h2 := (List.mem_filter.mp hn).2
        simpa using h2
      rw [hc0]
      have hkf : (db.filter (fun n => !(nocaseEq n.title (pystrip T)))).filter
          (fun n => !(nocaseEq n.title (pystrip T))) =
          db.filter (fun n => !(nocaseEq n.title (pystrip T))) := by
        rw [List.filter_eq_self]
        intro n hn
        exact (List.mem_filter.mp hn).2
      rw [hkf]
      simp
  · intro hnex
    push_neg at hnex
    rw [delete_message_single]
    have hc0 : db.countP (fun n => nocaseEq n.title (pystrip T)) = 0 := by
      rw [List.countP_eq_zero]
      intro n hn hcontra
      exact hnex n hn (nocaseEq_iff.mp hcontra)
    rw [hc0]
    have hfl : db.filter (fun n => !(nocaseEq n.title (pystrip T))) = db := by
      rw [List.filter_eq_self]
      intro n hn
      simp only [Bool.not_eq_true']
      by_contra hcontra
      simp only [Bool.not_eq_false] at hcontra
      exact hnex n hn (nocaseEq_iff.mp hcontra)
    rw [hfl]
    simp

/-- Witness for C4: deleting `"foo"` from a store holding `("Foo", "bar")`,
then looking it up again. -/
theorem delete_removes_ci_match_witness :
    delete_message ["foo"] [⟨"Foo", "bar"⟩] = ([], 1, DeleteReply.deleted "foo") ∧
    get_message ["foo"] [] = GetReply.notFound "foo" := by
  have h := (delete_removes_ci_match [⟨"Foo", "bar"⟩] "foo" (by decide)).1 (by decide)
  exact ⟨h.1, h.2.1⟩

/-- C5 counterexample: the claim fails as stated. `Search("a_")` on a store
holding `("ab", "x")` returns that pair although `"ab"` does not contain
`"a_"` as a case-insensitive infix (the `_` is a `LIKE` single-character
wildcard); and `Search(" a")` on a store holding `("ba", "y")` returns that
pair although `"ba"` does not contain `" a"` as an infix (the query is
stripped before matching). Both inputs are non-empty query strings, refuting
"returns exactly the set of stored pairs whose title contains Q". -/
theorem inline_query_not_pure_substring :
    (inline_query "a_" [⟨"ab", "x"⟩] = [("ab", "x")] ∧
      substrCI "a_".data "ab".data = false) ∧
    (inline_query " a" [⟨"ba", "y"⟩] = [("ba", "y")] ∧
      substrCI " a".data "ba".data = false) := by
  refine ⟨⟨?_, ?_⟩, ?_, ?_⟩ <;> decide

/-- C5 as amended: for every query `Q` whose stripped form is non-empty and
contains neither `LIKE` wildcard (`%`, `_`), `inline_query` returns exactly
the stored `(title, body)` pairs whose title contains the stripped `Q` as a
case-insensitive infix (in store order); in particular it returns the empty
list when no title contains it. -/
theorem inline_query_substring_amended (db : Store) (Q : String)
    (hne : pystrip Q ≠ "")
    (h1 : '%' ∉ (pystrip Q).data) (h2 : '_' ∉ (pystrip Q).data) :
    inline_query Q db =
      (db.filter (fun n => substrCI (pystrip Q).data n.title.data)).map
        (fun n => (n.title, n.message)) := by
  unfold inline_query
  dsimp only
  rw [if_neg hne]
  refine congrArg (List.map _) (List.filter_congr ?_)
  intro n _
  unfold sqliteLike
  have hdata : ("%" ++ pystrip Q ++ "%").data = '%' :: ((pystrip Q).data ++ ['%']) := by
    rw [String.data_append, String.data_append]
    rfl
  rw [hdata, likeMatch_substrCI _ h1 h2]

/-- Witness for C5 (amended) at the spec's own example. -/
theorem inline_query_substring_amended_witness :
    pystrip "report" ≠ "" ∧
    inline_query "report" [⟨"Weekly Report", "x"⟩] =
      (([⟨"Weekly Report", "x"⟩] : Store).filter
          (fun n => substrCI (pystrip "report").data n.title.data)).map
        (fun n => (n.title, n.message)) :=
  ⟨by decide,
    inline_query_substring_amended [⟨"Weekly Report", "x"⟩] "report" (by decide) (by decide)
      (by decide)⟩

end Telebot
